import Mathlib

/-!
Verification of the Arke upload CLI transfer engine against its specification.

The definitions below are shallow embeddings of the TypeScript sources:
scanner.ts (directory walk and per-directory processing policy), errors.ts
(error classification), retry.ts (exponential backoff), multipart.ts
(chunked transfer and part manifest), simple.ts, and uploader.ts (the
file-level orchestrator and the coordinator requests it builds).
-/

/-- ProcessingConfig from types/processing.ts: three boolean processing flags. -/
structure ProcessingConfig where
  ocr : Bool
  describe : Bool
  pinax : Bool
deriving DecidableEq, Repr

/-- DEFAULT_PROCESSING_CONFIG from types/processing.ts. -/
def DEFAULT_PROCESSING_CONFIG : ProcessingConfig :=
  { ocr := true, describe := true, pinax := true }

/-- A directory override file content: a subset of the policy fields
(Partial ProcessingConfig in the source); a missing field is none. -/
structure ProcessingOverride where
  ocr : Option Bool := none
  describe : Option Bool := none
  pinax : Option Bool := none
deriving DecidableEq, Repr

/-- mergeProcessingConfig from scanner.ts: if the override is null the defaults
are returned unchanged; otherwise each field of the override, when present,
replaces the corresponding default field. -/
def mergeProcessingConfig (defaults : ProcessingConfig)
    (override : Option ProcessingOverride) : ProcessingConfig :=
  match override with
  | none => defaults
  | some o =>
    { ocr := o.ocr.getD defaults.ocr
      describe := o.describe.getD defaults.describe
      pinax := o.pinax.getD defaults.pinax }

mutual
/-- A directory hierarchy as seen by the scanner walk: the optional
.arke-process.json override of this directory, the names of the files directly
contained in it, and its subdirectories. -/
inductive DirTree where
  | mk (override : Option ProcessingOverride) (files : List String) (subdirs : DirForest)

/-- A list of sibling subdirectories. -/
inductive DirForest where
  | nil
  | cons (d : DirTree) (ds : DirForest)
end

mutual
/-- The walk function of scanner.ts restricted to its policy behavior: at each
directory it computes mergeProcessingConfig of the batch-global default with
the directory override and attaches that policy to every file directly in the
directory; the recursive calls receive no policy from the parent (walk passes
only the path arguments down). -/
def scanTree (g : ProcessingConfig) : DirTree → List (String × ProcessingConfig)
  | .mk ov fs subs =>
    fs.map (fun f => (f, mergeProcessingConfig g ov)) ++ scanForest g subs

/-- scanTree mapped over a forest of sibling directories. -/
def scanForest (g : ProcessingConfig) : DirForest → List (String × ProcessingConfig)
  | .nil => []
  | .cons d ds => scanTree g d ++ scanForest g ds
end

/-- ForestHas ds d: directory d is one of the siblings in the forest ds. -/
inductive ForestHas : DirForest → DirTree → Prop
  | head (d : DirTree) (ds : DirForest) : ForestHas (.cons d ds) d
  | tail (d' : DirTree) {ds : DirForest} {d : DirTree}
      (h : ForestHas ds d) : ForestHas (.cons d' ds) d

/-- FileInDir f ov t: somewhere in the tree t there is a directory whose
override is ov that directly contains a file named f. -/
inductive FileInDir : String → Option ProcessingOverride → DirTree → Prop
  | here {f : String} {ov : Option ProcessingOverride} {fs : List String}
      {subs : DirForest} (h : f ∈ fs) : FileInDir f ov (.mk ov fs subs)
  | deeper {f : String} {ov' ov : Option ProcessingOverride} {fs : List String}
      {subs : DirForest} {d : DirTree} (hd : ForestHas subs d)
      (h : FileInDir f ov' d) : FileInDir f ov' (.mk ov fs subs)

/-- Following the words of the spec, for comparison with the code: the
effective policy of a file is the field-wise merge of the overrides of all its
ancestor directories, from the root down, over the batch-global default. -/
def specEffectivePolicy (g : ProcessingConfig)
    (ancestors : List (Option ProcessingOverride)) : ProcessingConfig :=
  ancestors.foldl mergeProcessingConfig g

/-- The error values thrown by the CLI, after the custom classes of errors.ts
plus the raw axios error shape. Only the fields read by isRetryableError are
kept: NetworkError and WorkerAPIError are recognized by instanceof,
WorkerAPIError carries an optional numeric statusCode, a raw axios error
carries an optional code string, and UploadError (errors.ts) wraps a cause
but exposes no code property. -/
inductive JSError where
  | networkError (message : String)
  | workerAPIError (statusCode : Option Nat)
  | uploadError (message : String) (cause : JSError)
  | axiosError (code : Option String)
  | otherError (message : String)
deriving DecidableEq, Repr

/-- isRetryableError from errors.ts: NetworkError instances are retryable;
WorkerAPIError instances are retryable iff their statusCode is present and at
least 500; any error whose code is ECONNRESET, ETIMEDOUT, ENOTFOUND or
ECONNREFUSED is retryable; everything else is not. -/
def isRetryableError : JSError → Bool
  | .networkError _ => true
  | .workerAPIError (some status) => decide (500 ≤ status)
  | .workerAPIError none => false
  | .axiosError (some code) =>
    code == "ECONNRESET" || code == "ETIMEDOUT" ||
      code == "ENOTFOUND" || code == "ECONNREFUSED"
  | .axiosError none => false
  | .uploadError _ _ => false
  | .otherError _ => false

/-- axios.isAxiosError for the embedded error type. -/
def isAxiosError : JSError → Bool
  | .axiosError _ => true
  | _ => false

/-- The observable outcome of one retryWithBackoff call: the value returned or
error thrown, the number of times the wrapped function was invoked, and the
backoff delays slept between invocations, in order. -/
structure RetryResult (E α : Type) where
  result : Except E α
  attempts : Nat
  delays : List Nat
deriving Repr

/-- The loop body of retryWithBackoff (retry.ts) starting at a given attempt
index with a given number of attempts still allowed after the current one.
fn i is the outcome of the i-th invocation of the wrapped function (0-based).
On a failure the loop first checks whether attempts are exhausted, then asks
shouldRetry, and otherwise sleeps min(initialDelay * 2 ^ attempt, maxDelay)
and retries. -/
def retryFrom (fn : Nat → Except E α) (shouldRetry : E → Bool)
    (initialDelay maxDelay : Nat) : Nat → Nat → RetryResult E α
  | attempt, remaining =>
    match fn attempt with
    | .ok v => ⟨.ok v, 1, []⟩
    | .error e =>
      match remaining with
      | 0 => ⟨.error e, 1, []⟩
      | r + 1 =>
        if shouldRetry e then
          let d := min (initialDelay * 2 ^ attempt) maxDelay
          let rest := retryFrom fn shouldRetry initialDelay maxDelay (attempt + 1) r
          ⟨rest.result, rest.attempts + 1, d :: rest.delays⟩
        else ⟨.error e, 1, []⟩

/-- retryWithBackoff from retry.ts: run the loop from attempt 0 with
maxRetries further attempts allowed. -/
def retryWithBackoffModel (fn : Nat → Except E α) (shouldRetry : E → Bool)
    (initialDelay maxDelay maxRetries : Nat) : RetryResult E α :=
  retryFrom fn shouldRetry initialDelay maxDelay 0 maxRetries

/-- DEFAULT_OPTIONS.initialDelay from retry.ts (1 second). -/
def defaultInitialDelay : Nat := 1000

/-- DEFAULT_OPTIONS.maxDelay from retry.ts (30 seconds). -/
def defaultMaxDelay : Nat := 30000

/-- The catch block inside uploadPart (multipart.ts): an axios error is
rethrown wrapped in an UploadError (which carries the cause but no code
property); any other error is rethrown unchanged. -/
def wrapPartError (e : JSError) : JSError :=
  if isAxiosError e then .uploadError "Failed to upload part" e else e

/-- One part transfer as driven by uploadPart (multipart.ts): the attempt
body (positioned read plus PUT), whose raw outcome at invocation i is given
by raw i, is wrapped in retryWithBackoff with only maxRetries overridden, so
the classifier is the default isRetryableError and it sees the errors after
the wrapPartError transformation of the catch block. -/
def uploadPartModel (raw : Nat → Except JSError α) (maxRetries : Nat) :
    RetryResult JSError α :=
  retryWithBackoffModel (fun i => (raw i).mapError wrapPartError)
    isRetryableError defaultInitialDelay defaultMaxDelay maxRetries

/-- The etag sanitization in uploadPart (multipart.ts): the ETag response
header with every double-quote character removed, after the global-flag
regular expression replace. -/
def cleanEtag (etag : String) : String :=
  String.mk (etag.data.filter (fun c => c != '"'))

/-- Following the words of the spec, for comparison with the code: strip only
the surrounding quote characters of the integrity tag, leaving interior
characters untouched. -/
def stripSurroundingQuotes (s : String) : String :=
  match s.data with
  | [] => s
  | c :: cs =>
    if c = '"' ∧ cs ≠ [] ∧ cs.getLast? = some '"' then String.mk cs.dropLast
    else s

/-- One presigned part target from the coordinator (types/api.ts):
a 1-indexed part number and its URL. -/
structure PresignedUrlInfo where
  part_number : Nat
  url : String
deriving DecidableEq, Repr

/-- One entry of the part manifest (types/api.ts): part number and
quote-stripped etag. -/
structure PartInfo where
  part_number : Nat
  etag : String
deriving DecidableEq, Repr

/-- The PartInfo returned by a successful uploadPart run (multipart.ts): the
part number of the presigned target together with the cleaned ETag header the
store answered with (etagHeader gives the raw header per target). -/
def uploadPartResult (etagHeader : PresignedUrlInfo → String)
    (u : PresignedUrlInfo) : PartInfo :=
  { part_number := u.part_number, etag := cleanEtag (etagHeader u) }

/-- The resume filter of uploadMultipart (multipart.ts): presigned targets
whose part number is in the set of already completed part numbers are
excluded from the work queue. -/
def partsToUpload (presignedUrls : List PresignedUrlInfo)
    (completedParts : List PartInfo) : List PresignedUrlInfo :=
  let completedPartNumbers := completedParts.map (fun p => p.part_number)
  presignedUrls.filter (fun u => !(decide (u.part_number ∈ completedPartNumbers)))

/-- Insertion into a list sorted ascending by part number; the building block
of the sortParts embedding of the final sort in uploadMultipart. -/
def insertPart (p : PartInfo) : List PartInfo → List PartInfo
  | [] => [p]
  | q :: qs =>
    if p.part_number ≤ q.part_number then p :: q :: qs else q :: insertPart p qs

/-- The final sort of uploadMultipart (multipart.ts): the combined part list
sorted ascending by part_number (a stable comparison-based sort, embedded as
insertion sort). -/
def sortParts : List PartInfo → List PartInfo
  | [] => []
  | p :: ps => insertPart p (sortParts ps)

/-- uploadMultipart (multipart.ts) after all part uploads succeeded:
completionOrder is the order in which the concurrent part workers pushed
their results (some permutation of the filtered work queue); the already
completed parts are concatenated with the fresh results and the whole list is
sorted ascending by part number before being returned. -/
def uploadMultipartModel (completedParts : List PartInfo)
    (etagHeader : PresignedUrlInfo → String)
    (completionOrder : List PresignedUrlInfo) : List PartInfo :=
  sortParts (completedParts ++ completionOrder.map (uploadPartResult etagHeader))

/-- FileInfo from types/file.ts: one discovered, eligible file. -/
structure FileInfo where
  localPath : String
  logicalPath : String
  fileName : String
  size : Nat
  contentType : String
  cid : String
  processingConfig : ProcessingConfig
deriving DecidableEq, Repr

/-- The JSON body posted by uploadFile (uploader.ts) to the start-file
endpoint of the coordinator. The documented wire shape (API.md) also has the
keys cid and processing_config; a key the object literal does not set is
represented as none. -/
structure StartFileUploadRequest where
  file_name : String
  file_size : Nat
  logical_path : String
  content_type : String
  cid : Option String
  processing_config : Option ProcessingConfig
deriving DecidableEq, Repr

/-- The request object literal built in uploadFile (uploader.ts): exactly the
four fields file_name, file_size, logical_path and content_type are set from
the task; the body carries no cid and no processing_config key. -/
def buildStartFileUploadRequest (t : FileInfo) : StartFileUploadRequest :=
  { file_name := t.fileName
    file_size := t.size
    logical_path := t.logicalPath
    content_type := t.contentType
    cid := none
    processing_config := none }

/-- Task states of an UploadTask (types/file.ts). -/
inductive TaskStatus where
  | pending
  | uploading
  | completed
  | failed
deriving DecidableEq, Repr

/-- The uploadWorker loop of uploadFiles (uploader.ts) draining the shared
queue: each dequeued task runs its full transfer; on success uploadFile left
the task completed, on a thrown error the catch block records hasErrors and
the loop continues with the next task. outcome t says whether the transfer of
task t succeeds. Returns the terminal status of every task in queue order and
the final hasErrors flag. -/
def uploadWorkerDrain (outcome : α → Bool) : List α → List (α × TaskStatus) × Bool
  | [] => ([], false)
  | t :: ts =>
    let status := if outcome t then TaskStatus.completed else TaskStatus.failed
    let rest := uploadWorkerDrain outcome ts
    ((t, status) :: rest.1, (!outcome t) || rest.2)

/-- uploadFiles (uploader.ts): drain the whole queue, then throw
"Some files failed to upload" iff hasErrors was set; the per-task terminal
states are left as the workers recorded them. -/
def uploadFilesModel (outcome : α → Bool) (tasks : List α) :
    List (α × TaskStatus) × Except String Unit :=
  let drained := uploadWorkerDrain outcome tasks
  (drained.1,
    if drained.2 then Except.error "Some files failed to upload" else Except.ok ())

/-- True iff s ends with the given suffix, computed on the character list. -/
def strHasSuffix (s suffixStr : String) : Bool :=
  decide (suffixStr.data.length ≤ s.data.length) &&
    (s.data.drop (s.data.length - suffixStr.data.length) == suffixStr.data)

/-- ALLOWED_EXTENSIONS from lib/validation.ts (staged in progress.ts). -/
def ALLOWED_EXTENSIONS : List String :=
  [".tiff", ".tif", ".jpg", ".jpeg", ".png", ".gif", ".bmp",
   ".json", ".xml", ".txt", ".csv", ".pdf", ".md"]

/-- MAX_FILE_SIZE from lib/validation.ts: 5 GB. -/
def MAX_FILE_SIZE : Nat := 5 * 1024 * 1024 * 1024

/-- SUPPORTED_IMAGE_REF_CONTENT_TYPES from lib/validation.ts. -/
def SUPPORTED_IMAGE_REF_CONTENT_TYPES : List String :=
  ["image/jpeg", "image/png", "image/webp"]

/-- Char lowercasing as String.prototype.toLowerCase acts on the ASCII
characters appearing in file extensions. -/
def charToLower (c : Char) : Char :=
  if 65 ≤ c.toNat ∧ c.toNat ≤ 90 then Char.ofNat (c.toNat + 32) else c

/-- String.prototype.toLowerCase on the character list. -/
def strToLower (s : String) : String :=
  String.mk (s.data.map charToLower)

/-- getFileExtension from lib/validation.ts. -/
def getFileExtension (fileName : String) : String :=
  let afterLastDot := fileName.data.reverse.takeWhile (fun c => c != '.')
  if afterLastDot.length = fileName.data.length then ""
  else if afterLastDot.isEmpty then ""
  else String.mk ('.' :: afterLastDot.reverse)

/-- validateFileExtension from lib/validation.ts. -/
def validateFileExtension (fileName : String)
    (allowedExtensions : Option (List String)) : Bool :=
  let ext := getFileExtension fileName
  let allowed := allowedExtensions.getD ALLOWED_EXTENSIONS
  allowed.contains (strToLower ext)

/-- validateFileSize from lib/validation.ts, throw embedded as false. -/
def validateFileSize (size : Nat) : Bool :=
  decide (0 < size) && decide (size ≤ MAX_FILE_SIZE)

/-- INVALID_PATH_CHARS from lib/validation.ts. -/
def isInvalidPathChar (c : Char) : Bool :=
  c == '<' || c == '>' || c == ':' || c == '"' || c == '|' ||
    c == '?' || c == '*' || decide (c.toNat ≤ 0x1f)

/-- String.prototype.split on the slash character, keeping empty segments. -/
def splitOnSlash : List Char → List (List Char)
  | [] => [[]]
  | c :: cs =>
    match splitOnSlash cs with
    | [] => [[c]]
    | s :: ss => if c = '/' then [] :: s :: ss else (c :: s) :: ss

/-- validateLogicalPath from lib/validation.ts, throw embedded as false. -/
def validateLogicalPath (path : String) : Bool :=
  (match path.data.head? with
   | some c => c == '/'
   | none => false) &&
  path.data.all (fun c => !(isInvalidPathChar c)) &&
  (let segs := (splitOnSlash path.data).filter (fun s => !s.isEmpty)
   (!(segs.isEmpty) || path == "/") &&
   segs.all (fun s => !(s == ['.']) && !(s == ['.', '.'])))

/-- normalizePath from lib/validation.ts: backslashes become slashes. -/
def normalizePath (path : String) : String :=
  String.mk (path.data.map (fun c => if c = '\\' then '/' else c))

/-- A JSON value as produced by JSON.parse; numbers are modelled as integers,
which covers every comparison the validation code performs on them. -/
inductive JsonValue where
  | null
  | bool (b : Bool)
  | num (n : Int)
  | str (s : String)
  | arr (elems : List JsonValue)
  | obj (fields : List (String × JsonValue))
deriving Repr

/-- Property access on a parsed JSON object (JSON.parse keeps the last of
duplicate keys); none models undefined. -/
def getField (fields : List (String × JsonValue)) (key : String) :
    Option JsonValue :=
  (fields.reverse.find? (fun kv => kv.1 == key)).map (fun kv => kv.2)

/-- The external effects and library calls of scanner.ts, abstracted as
oracles: node fs and path.posix.join, the npm mime-types lookup, JSON.parse,
the WHATWG URL parser, and the multiformats sha256 CID computation. The
validation logic of lib/validation.ts is embedded, not abstracted. -/
structure ScanEnv where
  readTextFile : String → Option String
  jsonParse : String → Option JsonValue
  urlProtocol : String → Option String
  posixJoin : String → String → String
  mimeLookup : String → Option String
  accessReadable : String → Bool
  readFileBytes : String → Option (List Nat)
  sha256CidString : List Nat → String

/-- validateImageRefJson from lib/validation.ts, throw embedded as false
(the file name parameter only feeds the thrown error messages):
the content must parse as a JSON object whose url field is a non-empty (the
truthiness check) string parsing as an http or https URL; content_type, when
present, must be a supported string; size_bytes, when present, a positive
number; original_name, when present, a string. -/
def validateImageRefJson (env : ScanEnv) (content _fileName : String) : Bool :=
  match env.jsonParse content with
  | none => false
  | some parsed =>
    match parsed with
    | .obj fields =>
      (match getField fields "url" with
       | some (.str u) =>
         u != "" &&
           (match env.urlProtocol u with
            | some proto => proto == "http:" || proto == "https:"
            | none => false)
       | _ => false) &&
      (match getField fields "content_type" with
       | none => true
       | some (.str ct) => SUPPORTED_IMAGE_REF_CONTENT_TYPES.contains ct
       | some _ => false) &&
      (match getField fields "size_bytes" with
       | none => true
       | some (.num n) => decide (0 < n)
       | some _ => false) &&
      (match getField fields "original_name" with
       | none => true
       | some (.str _) => true
       | some _ => false)
    | _ => false

/-- computeFileCID from utils/hash.ts: read the file fully and hash its
bytes (the multiformats sha256 digest and CIDv1 base32 rendering are the
sha256CidString oracle); a read or hash failure becomes the thrown error,
embedded as none. -/
def computeFileCID (env : ScanEnv) (filePath : String) : Option String :=
  (env.readFileBytes filePath).map env.sha256CidString

def processFileModel (env : ScanEnv) (allowedExtensions : Option (List String))
    (rootPath localPath fileName relPath : String)
    (size : Nat) (cfg : ProcessingConfig) : Option FileInfo :=
  if fileName = ".arke-process.json" then none
  else if !(validateFileExtension fileName allowedExtensions) then none
  else if strHasSuffix fileName ".image-ref.json"
      && !(match env.readTextFile localPath with
           | none => false
           | some content => validateImageRefJson env content fileName) then none
  else if !(validateFileSize size) then none
  else if !(validateLogicalPath (env.posixJoin rootPath (normalizePath relPath))) then none
  else if !(env.accessReadable localPath) then none
  else
    match computeFileCID env localPath with
    | none => none
    | some cid =>
      some
        { localPath := localPath
          logicalPath := env.posixJoin rootPath (normalizePath relPath)
          fileName := fileName
          size := size
          contentType := (env.mimeLookup fileName).getD "application/octet-stream"
          cid := cid
          processingConfig := cfg }

/-- The concrete environment used by the C10 witness: a filesystem with one
readable three-byte file, the plain slash join, and fixed mime and CID
answers. -/
def witnessEnv : ScanEnv :=
  { readTextFile := fun _ => none
    jsonParse := fun _ => none
    urlProtocol := fun _ => none
    posixJoin := fun r p => r ++ "/" ++ p
    mimeLookup := fun _ => some "application/json"
    accessReadable := fun _ => true
    readFileBytes := fun _ => some [1, 2, 3]
    sha256CidString := fun _ => "bafkcid" }

theorem retryFrom_of_ok {fn : Nat → Except E α} {a : Nat} {v : α}
    (sr : E → Bool) (c M r : Nat) (h : fn a = .ok v) :
    retryFrom fn sr c M a r = ⟨.ok v, 1, []⟩ := by
  rw [retryFrom]; simp [h]

theorem retryFrom_of_error_exhausted {fn : Nat → Except E α} {a : Nat} {e : E}
    (sr : E → Bool) (c M : Nat) (h : fn a = .error e) :
    retryFrom fn sr c M a 0 = ⟨.error e, 1, []⟩ := by
  rw [retryFrom]; simp [h]

theorem retryFrom_of_error_noretry {fn : Nat → Except E α} {a : Nat} {e : E}
    {sr : E → Bool} (c M r : Nat) (h : fn a = .error e) (hsr : sr e = false) :
    retryFrom fn sr c M a (r + 1) = ⟨.error e, 1, []⟩ := by
  rw [retryFrom]; simp [h, hsr]

theorem retryFrom_of_error_retry {fn : Nat → Except E α} {a : Nat} {e : E}
    {sr : E → Bool} (c M r : Nat) (h : fn a = .error e) (hsr : sr e = true) :
    retryFrom fn sr c M a (r + 1) =
      ⟨(retryFrom fn sr c M (a + 1) r).result,
        (retryFrom fn sr c M (a + 1) r).attempts + 1,
        min (c * 2 ^ a) M :: (retryFrom fn sr c M (a + 1) r).delays⟩ := by
  rw [retryFrom]; simp [h, hsr]

theorem retryFrom_all_fail (fn : Nat → Except E α) (sr : E → Bool) (c M : Nat)
    (es : Nat → E) (hfail : ∀ i, fn i = .error (es i))
    (hretry : ∀ i, sr (es i) = true) :
    ∀ (r a : Nat), (retryFrom fn sr c M a r).attempts = r + 1 ∧
      (retryFrom fn sr c M a r).result = .error (es (a + r)) := by
  intro r
  induction r with
  | zero =>
    intro a
    rw [retryFrom_of_error_exhausted sr c M (hfail a)]
    simp
  | succ r ih =>
    intro a
    have h := ih (a + 1)
    rw [retryFrom_of_error_retry c M r (hfail a) (hretry a)]
    refine ⟨by rw [h.1], ?_⟩
    rw [h.2]
    have heq : a + 1 + r = a + (r + 1) := by omega
    rw [heq]

theorem retryFrom_delays_shape (fn : Nat → Except E α) (sr : E → Bool) (c M : Nat) :
    ∀ (r a : Nat), ∃ j, (retryFrom fn sr c M a r).delays
      = (List.range j).map (fun i => min (c * 2 ^ (a + i)) M) := by
  intro r
  induction r with
  | zero =>
    intro a
    refine ⟨0, ?_⟩
    cases h : fn a with
    | ok v => rw [retryFrom_of_ok sr c M 0 h]; simp
    | error e => rw [retryFrom_of_error_exhausted sr c M h]; simp
  | succ r ih =>
    intro a
    cases h : fn a with
    | ok v => exact ⟨0, by rw [retryFrom_of_ok sr c M (r + 1) h]; simp⟩
    | error e =>
      cases hsr : sr e with
      | false => exact ⟨0, by rw [retryFrom_of_error_noretry c M r h hsr]; simp⟩
      | true =>
        obtain ⟨j, hj⟩ := ih (a + 1)
        refine ⟨j + 1, ?_⟩
        rw [retryFrom_of_error_retry c M r h hsr]
        simp only [hj, List.range_succ_eq_map, List.map_cons, List.map_map]
        rw [List.cons_eq_cons]
        refine ⟨by simp, ?_⟩
        apply List.map_congr_left
        intro i hi
        show c * 2 ^ (a + 1 + i) ⊓ M = c * 2 ^ (a + (i + 1)) ⊓ M
        have heq2 : a + 1 + i = a + (i + 1) := by omega
        rw [heq2]

/-- C5: an operation wrapped in the retry policy with bound maxRetries whose
every attempt fails with an error the classifier deems retryable is attempted
exactly maxRetries + 1 times and the error of the final attempt is then
propagated to the caller. -/
theorem retryWithBackoff_exhausts_attempts (fn : Nat → Except E α) (sr : E → Bool)
    (c M r : Nat) (es : Nat → E) (hfail : ∀ i, fn i = .error (es i))
    (hretry : ∀ i, sr (es i) = true) :
    (retryWithBackoffModel fn sr c M r).attempts = r + 1 ∧
      (retryWithBackoffModel fn sr c M r).result = .error (es r) := by
  have h := retryFrom_all_fail fn sr c M es hfail hretry r 0
  exact ⟨h.1, by rw [retryWithBackoffModel, h.2]; simp⟩

theorem retryWithBackoff_exhausts_attempts_witness :
    (∀ i : Nat, (fun n => (Except.error n : Except Nat Unit)) i = .error i) ∧
    (∀ i : Nat, (fun _ : Nat => true) i = true) ∧
    (retryWithBackoffModel (fun n => (Except.error n : Except Nat Unit))
        (fun _ => true) 1000 30000 3).attempts = 3 + 1 ∧
    (retryWithBackoffModel (fun n => (Except.error n : Except Nat Unit))
        (fun _ => true) 1000 30000 3).result = .error 3 :=
  ⟨fun _ => rfl, fun _ => rfl,
    (retryWithBackoff_exhausts_attempts _ _ 1000 30000 3 (fun i => i)
      (fun _ => rfl) (fun _ => rfl)).1,
    (retryWithBackoff_exhausts_attempts _ _ 1000 30000 3 (fun i => i)
      (fun _ => rfl) (fun _ => rfl)).2⟩

/-- C6: in any run of the retry policy configured with initialDelay and
maxDelay, the k-th backoff delay (0-indexed k, i.e. the delay inserted before
the k-th retry counted 1-indexed as attempt k) equals
min(initialDelay * 2 ^ k, maxDelay), and when initialDelay is positive each
delay is strictly larger than the previous one unless it has reached the
maxDelay cap. -/
theorem retryWithBackoff_delay_schedule (fn : Nat → Except E α) (sr : E → Bool)
    (c M r k : Nat)
    (hk : k < (retryWithBackoffModel fn sr c M r).delays.length) :
    (retryWithBackoffModel fn sr c M r).delays.get ⟨k, hk⟩ = min (c * 2 ^ k) M
    ∧ (0 < c → ∀ (hk1 : k + 1 < (retryWithBackoffModel fn sr c M r).delays.length),
        (retryWithBackoffModel fn sr c M r).delays.get ⟨k, hk⟩ <
          (retryWithBackoffModel fn sr c M r).delays.get ⟨k + 1, hk1⟩
        ∨ (retryWithBackoffModel fn sr c M r).delays.get ⟨k + 1, hk1⟩ = M) := by
  obtain ⟨j, hj⟩ := retryFrom_delays_shape fn sr c M r 0
  have hj' : (retryWithBackoffModel fn sr c M r).delays
      = (List.range j).map (fun i => min (c * 2 ^ (0 + i)) M) := hj
  have hget : ∀ (i : Nat) (hi : i < (retryWithBackoffModel fn sr c M r).delays.length),
      (retryWithBackoffModel fn sr c M r).delays.get ⟨i, hi⟩ = min (c * 2 ^ i) M := by
    intro i hi
    rw [List.get_of_eq hj' ⟨i, hi⟩]
    simp [List.get_eq_getElem]
  refine ⟨hget k hk, fun hc hk1 => ?_⟩
  rw [hget k hk, hget (k + 1) hk1]
  by_cases hM : c * 2 ^ (k + 1) < M
  · left
    have h1 : min (c * 2 ^ (k + 1)) M = c * 2 ^ (k + 1) :=
      min_eq_left (Nat.le_of_lt hM)
    rw [h1]
    have hp : (2 : Nat) ^ k < 2 ^ (k + 1) :=
      Nat.pow_lt_pow_right (by norm_num) (Nat.lt_succ_self k)
    have h2 : c * 2 ^ k < c * 2 ^ (k + 1) := mul_lt_mul_of_pos_left hp hc
    exact Nat.lt_of_le_of_lt (Nat.min_le_left _ _) h2
  · right
    exact min_eq_right (Nat.le_of_not_lt hM)

theorem retryWithBackoff_delay_schedule_witness :
    0 < (retryWithBackoffModel (fun n => (Except.error n : Except Nat Unit))
        (fun _ => true) 1000 30000 3).delays.length ∧
    0 + 1 < (retryWithBackoffModel (fun n => (Except.error n : Except Nat Unit))
        (fun _ => true) 1000 30000 3).delays.length ∧
    (0 : Nat) < 1000 ∧
    ((retryWithBackoffModel (fun n => (Except.error n : Except Nat Unit))
        (fun _ => true) 1000 30000 3).delays.get ⟨0, by decide⟩
      = min (1000 * 2 ^ 0) 30000) ∧
    ((retryWithBackoffModel (fun n => (Except.error n : Except Nat Unit))
        (fun _ => true) 1000 30000 3).delays.get ⟨0, by decide⟩ <
      (retryWithBackoffModel (fun n => (Except.error n : Except Nat Unit))
        (fun _ => true) 1000 30000 3).delays.get ⟨0 + 1, by decide⟩
    ∨ (retryWithBackoffModel (fun n => (Except.error n : Except Nat Unit))
        (fun _ => true) 1000 30000 3).delays.get ⟨0 + 1, by decide⟩ = 30000) :=
  ⟨by decide, by decide, by decide,
    (retryWithBackoff_delay_schedule (fun n => (Except.error n : Except Nat Unit))
      (fun _ => true) 1000 30000 3 0 (by decide)).1,
    (retryWithBackoff_delay_schedule (fun n => (Except.error n : Except Nat Unit))
      (fun _ => true) 1000 30000 3 0 (by decide)).2 (by decide) (by decide)⟩

/-- C7: an operation wrapped in the retry policy whose first attempt fails
with an error the classifier deems non-retryable is attempted exactly once,
the error propagates, and no backoff delay is slept. -/
theorem retryWithBackoff_nonretryable_single_attempt (fn : Nat → Except E α)
    (sr : E → Bool) (c M r : Nat) (e : E)
    (h0 : fn 0 = .error e) (hnr : sr e = false) :
    (retryWithBackoffModel fn sr c M r).result = .error e ∧
      (retryWithBackoffModel fn sr c M r).attempts = 1 ∧
      (retryWithBackoffModel fn sr c M r).delays = [] := by
  cases r with
  | zero => rw [retryWithBackoffModel, retryFrom_of_error_exhausted sr c M h0]; exact ⟨rfl, rfl, rfl⟩
  | succ r => rw [retryWithBackoffModel, retryFrom_of_error_noretry c M r h0 hnr]; exact ⟨rfl, rfl, rfl⟩

theorem retryWithBackoff_nonretryable_single_attempt_witness :
    (fun _ : Nat => (Except.error (JSError.workerAPIError (some 400)) : Except JSError Unit)) 0
      = .error (JSError.workerAPIError (some 400)) ∧
    isRetryableError (JSError.workerAPIError (some 400)) = false ∧
    (retryWithBackoffModel
        (fun _ => (Except.error (JSError.workerAPIError (some 400)) : Except JSError Unit))
        isRetryableError 1000 30000 3).result = .error (JSError.workerAPIError (some 400)) ∧
    (retryWithBackoffModel
        (fun _ => (Except.error (JSError.workerAPIError (some 400)) : Except JSError Unit))
        isRetryableError 1000 30000 3).attempts = 1 :=
  ⟨rfl, by decide,
    (retryWithBackoff_nonretryable_single_attempt _ isRetryableError 1000 30000 3 _
      rfl (by decide)).1,
    (retryWithBackoff_nonretryable_single_attempt _ isRetryableError 1000 30000 3 _
      rfl (by decide)).2.1⟩

/-- C3: the code does NOT re-attempt a part transfer that fails with a
transport-level failure. The raw axios error (here a connection reset) is
retryable under the default classification, but the catch block of uploadPart
wraps it in an UploadError, which carries no code property and is therefore
classified non-retryable, so the part upload makes exactly one attempt, sleeps
no backoff delay, and propagates the wrapped error. -/
theorem uploadPart_transport_failure_single_attempt :
    isRetryableError (JSError.axiosError (some "ECONNRESET")) = true
    ∧ (uploadPartModel
        (fun _ => (Except.error (JSError.axiosError (some "ECONNRESET")) : Except JSError PartInfo))
        3).attempts = 1
    ∧ (uploadPartModel
        (fun _ => (Except.error (JSError.axiosError (some "ECONNRESET")) : Except JSError PartInfo))
        3).result
      = Except.error (JSError.uploadError "Failed to upload part"
          (JSError.axiosError (some "ECONNRESET")))
    ∧ (uploadPartModel
        (fun _ => (Except.error (JSError.axiosError (some "ECONNRESET")) : Except JSError PartInfo))
        3).delays = [] :=
  ⟨by decide, rfl, rfl, rfl⟩

theorem uploadWorkerDrain_eq (outcome : α → Bool) (tasks : List α) :
    uploadWorkerDrain outcome tasks
      = (tasks.map (fun t => (t, if outcome t then TaskStatus.completed else TaskStatus.failed)),
          tasks.any (fun t => !outcome t)) := by
  induction tasks with
  | nil => rfl
  | cons t ts ih => simp [uploadWorkerDrain, ih]

/-- C9: one file's terminal failure does not cancel the rest of the batch:
every task in the queue is driven to a terminal state (completed exactly when
its transfer succeeds, failed otherwise), the batch-level failure is reported
after the whole queue has drained and exactly when at least one file failed,
and files whose transfer succeeded stay completed. -/
theorem uploadFiles_failure_isolation (outcome : α → Bool) (tasks : List α) :
    (uploadFilesModel outcome tasks).1
        = tasks.map (fun t => (t, if outcome t then TaskStatus.completed else TaskStatus.failed))
    ∧ ((uploadFilesModel outcome tasks).2 = Except.error "Some files failed to upload"
        ↔ ∃ t ∈ tasks, outcome t = false)
    ∧ ((uploadFilesModel outcome tasks).2 = Except.ok () ↔ ∀ t ∈ tasks, outcome t = true)
    ∧ (∀ p ∈ (uploadFilesModel outcome tasks).1, outcome p.1 = true → p.2 = TaskStatus.completed) := by
  have hdr := uploadWorkerDrain_eq outcome tasks
  refine ⟨by simp [uploadFilesModel, hdr], ?_, ?_, ?_⟩
  · cases hany : tasks.any (fun t => !outcome t) with
    | true =>
      have hex : ∃ t ∈ tasks, outcome t = false := by
        rw [List.any_eq_true] at hany
        simpa [Bool.not_eq_true'] using hany
      simp [uploadFilesModel, hdr, hany, hex]
    | false =>
      have hall : ∀ t ∈ tasks, outcome t = true := by
        rw [List.any_eq_false] at hany
        intro t ht
        have h2 := hany t ht
        simpa [Bool.not_eq_true'] using h2
      simp [uploadFilesModel, hdr, hany]
      exact hall
  · cases hany : tasks.any (fun t => !outcome t) with
    | true =>
      have hex : ∃ t ∈ tasks, outcome t = false := by
        rw [List.any_eq_true] at hany
        simpa [Bool.not_eq_true'] using hany
      simp [uploadFilesModel, hdr, hany]
      exact hex
    | false =>
      have hall : ∀ t ∈ tasks, outcome t = true := by
        rw [List.any_eq_false] at hany
        intro t ht
        have h2 := hany t ht
        simpa [Bool.not_eq_true'] using h2
      simp [uploadFilesModel, hdr, hany]
      exact hall
  · intro p hp hout
    rw [uploadFilesModel] at hp
    simp only [uploadWorkerDrain_eq] at hp
    simp only [List.mem_map] at hp
    obtain ⟨t, ht, hteq⟩ := hp
    rw [← hteq] at hout ⊢
    simp only at hout
    simp [hout]

/-- C2: the start-file request built by uploadFile carries the file name,
size, logical path and content type of the task, but NOT the content address
and NOT the resolved processing policy: the cid and processing_config keys of
the documented wire shape are never set, for any task. -/
theorem startFileUpload_request_omits_cid_and_policy (t : FileInfo) :
    (buildStartFileUploadRequest t).file_name = t.fileName
    ∧ (buildStartFileUploadRequest t).file_size = t.size
    ∧ (buildStartFileUploadRequest t).logical_path = t.logicalPath
    ∧ (buildStartFileUploadRequest t).content_type = t.contentType
    ∧ (buildStartFileUploadRequest t).cid = none
    ∧ (buildStartFileUploadRequest t).processing_config = none :=
  ⟨rfl, rfl, rfl, rfl, rfl, rfl⟩

/-- C8 counterexample: the claim that the recorded entity tag equals the ETag
header with its surrounding quote characters stripped fails for a header with
an interior quote: the code removes every double-quote character, so on the
concrete header (quote)a(quote)b(quote) it records ab while the
surrounding-strip of the claim gives a(quote)b. -/
theorem cleanEtag_differs_from_surrounding_strip :
    cleanEtag "\"a\"b\"" = "ab"
    ∧ stripSurroundingQuotes "\"a\"b\"" = "a\"b"
    ∧ cleanEtag "\"a\"b\"" ≠ stripSurroundingQuotes "\"a\"b\"" := by
  refine ⟨by decide, by decide, by decide⟩

/-- C8 (amended): the entity tag recorded for a part equals the ETag header
with every double-quote character removed; whenever the header carries no
interior quote (in particular for the usual store headers of the form
(quote)hex(quote)) this coincides with stripping the surrounding quotes, as
the claim states. -/
theorem cleanEtag_removes_all_quotes (s : String)
    (h : '"' ∉ (stripSurroundingQuotes s).data) :
    cleanEtag s = stripSurroundingQuotes s := by
  cases s with
  | mk l =>
    cases l with
    | nil => rfl
    | cons c cs =>
      rw [stripSurroundingQuotes] at h ⊢
      dsimp only at h ⊢
      by_cases hc : c = '"' ∧ cs ≠ [] ∧ cs.getLast? = some '"'
      · rw [if_pos hc] at h ⊢
        obtain ⟨hc1, hc2, hc3⟩ := hc
        have hlast : cs.getLast hc2 = '"' := by
          rw [List.getLast?_eq_getLast cs hc2] at hc3
          exact Option.some.inj hc3
        have hsplit : cs.dropLast ++ [cs.getLast hc2] = cs :=
          List.dropLast_append_getLast hc2
        rw [cleanEtag]
        congr 1
        show List.filter (fun x => x != '"') (c :: cs) = cs.dropLast
        rw [List.filter_cons]
        have hcfalse : (c != '"') = false := by simp [hc1]
        rw [hcfalse]
        simp only [Bool.false_eq_true, if_false]
        conv_lhs => rw [← hsplit]
        rw [List.filter_append]
        have h1 : cs.dropLast.filter (fun x => x != '"') = cs.dropLast := by
          rw [List.filter_eq_self]
          intro a ha
          simp only [bne_iff_ne, ne_eq]
          intro haq
          rw [haq] at ha
          exact h ha
        have h2 : [cs.getLast hc2].filter (fun x => x != '"') = [] := by
          simp [hlast]
        rw [h1, h2, List.append_nil]
      · rw [if_neg hc] at h ⊢
        rw [cleanEtag]
        congr 1
        show List.filter (fun x => x != '"') (c :: cs) = c :: cs
        rw [List.filter_eq_self]
        intro a ha
        simp only [bne_iff_ne, ne_eq]
        intro haq
        rw [haq] at ha
        exact h ha

theorem cleanEtag_removes_all_quotes_witness :
    ('"' ∉ (stripSurroundingQuotes "\"abc123\"").data)
    ∧ cleanEtag "\"abc123\"" = stripSurroundingQuotes "\"abc123\"" :=
  ⟨by decide, cleanEtag_removes_all_quotes _ (by decide)⟩

/-- C10: the per-directory policy-override file .arke-process.json is never
included in the scan result: for every filesystem and library behavior and
every allowed-extension configuration, no FileInfo produced by processFile
has that file name (even though .json is in ALLOWED_EXTENSIONS, as the
witness checks, and the file would pass every other filter), because
processFile returns before any filter when the name matches. -/
theorem processFile_skips_arke_process_config (env : ScanEnv)
    (allowedExtensions : Option (List String))
    (rootPath localPath fileName relPath : String) (size : Nat)
    (cfg : ProcessingConfig) (fi : FileInfo)
    (h : processFileModel env allowedExtensions rootPath localPath fileName
        relPath size cfg = some fi) :
    fi.fileName ≠ ".arke-process.json" := by
  by_cases hname : fileName = ".arke-process.json"
  · rw [processFileModel, if_pos hname] at h
    cases h
  · have hfn : fi.fileName = fileName := by
      rw [processFileModel, if_neg hname] at h
      repeat' split at h
      all_goals cases h
      all_goals rfl
    rw [hfn]
    exact hname

theorem processFile_skips_arke_process_config_witness :
    processFileModel witnessEnv none "/root" "/d/a.json" "a.json" "a.json"
        3 ⟨true, true, true⟩
      = some
          { localPath := "/d/a.json", logicalPath := "/root/a.json",
            fileName := "a.json", size := 3,
            contentType := "application/json", cid := "bafkcid",
            processingConfig := ⟨true, true, true⟩ }
    ∧ validateFileExtension ".arke-process.json" none = true
    ∧ ("a.json" : String) ≠ ".arke-process.json" :=
  ⟨by decide, by decide,
    processFile_skips_arke_process_config witnessEnv none
      "/root" "/d/a.json" "a.json" "a.json" 3 ⟨true, true, true⟩
      { localPath := "/d/a.json", logicalPath := "/root/a.json",
        fileName := "a.json", size := 3,
        contentType := "application/json", cid := "bafkcid",
        processingConfig := ⟨true, true, true⟩ }
      (by decide)⟩

mutual
theorem mem_scanTree_char (g : ProcessingConfig) (f : String) (cfg : ProcessingConfig) :
    (t : DirTree) → ((f, cfg) ∈ scanTree g t ↔
      ∃ ov, FileInDir f ov t ∧ cfg = mergeProcessingConfig g ov)
  | .mk ov fs subs => by
    rw [scanTree]
    simp only [List.mem_append, List.mem_map, Prod.mk.injEq]
    constructor
    · rintro (⟨x, hx, hxf, hxc⟩ | hforest)
      · subst hxf
        exact ⟨ov, FileInDir.here hx, hxc.symm⟩
      · obtain ⟨ov', d, hhas, hin, hcfg⟩ := (mem_scanForest_char g f cfg subs).mp hforest
        exact ⟨ov', FileInDir.deeper hhas hin, hcfg⟩
    · rintro ⟨ov', hin, hcfg⟩
      cases hin with
      | here hf => exact Or.inl ⟨f, hf, rfl, hcfg.symm⟩
      | deeper hhas hin2 =>
        exact Or.inr ((mem_scanForest_char g f cfg subs).mpr ⟨ov', _, hhas, hin2, hcfg⟩)

theorem mem_scanForest_char (g : ProcessingConfig) (f : String) (cfg : ProcessingConfig) :
    (ds : DirForest) → ((f, cfg) ∈ scanForest g ds ↔
      ∃ ov d, ForestHas ds d ∧ FileInDir f ov d ∧ cfg = mergeProcessingConfig g ov)
  | .nil => by
    rw [scanForest]
    simp only [List.not_mem_nil, false_iff, not_exists]
    rintro ov d ⟨hhas, _, _⟩
    cases hhas
  | .cons d ds => by
    rw [scanForest]
    simp only [List.mem_append]
    constructor
    · rintro (htree | hforest)
      · obtain ⟨ov', hin, hcfg⟩ := (mem_scanTree_char g f cfg d).mp htree
        exact ⟨ov', d, ForestHas.head d ds, hin, hcfg⟩
      · obtain ⟨ov', d', hhas, hin, hcfg⟩ := (mem_scanForest_char g f cfg ds).mp hforest
        exact ⟨ov', d', ForestHas.tail d hhas, hin, hcfg⟩
    · rintro ⟨ov', d', hhas, hin, hcfg⟩
      cases hhas with
      | head => exact Or.inl ((mem_scanTree_char g f cfg d).mpr ⟨ov', hin, hcfg⟩)
      | tail _ hhas2 =>
        exact Or.inr ((mem_scanForest_char g f cfg ds).mpr ⟨ov', d', hhas2, hin, hcfg⟩)
end

/-- C1 (amended): for every scanned hierarchy, a file's effective processing
policy is the field-wise merge of the override of the directory DIRECTLY
containing it over the batch-global default; overrides of ancestor
directories do not propagate, because walk restarts every merge from the
global default. -/
theorem scanTree_policy_own_directory_merge (g : ProcessingConfig) (t : DirTree)
    (f : String) (cfg : ProcessingConfig) :
    (f, cfg) ∈ scanTree g t ↔
      ∃ ov, FileInDir f ov t ∧ cfg = mergeProcessingConfig g ov :=
  mem_scanTree_char g f cfg t

/-- C1 counterexample: in the hierarchy A/B/C where the override of A sets
ocr, the override of B sets describe (no ocr field) and C has no override,
the code resolves a file in C to the untouched global default (here all
false), while the ancestor-merge of the claim would give ocr and describe
both set; the two policies differ. -/
theorem scanTree_ancestor_merge_counterexample :
    scanTree ⟨false, false, false⟩
        (DirTree.mk (some { ocr := some true }) []
          (.cons (.mk (some { describe := some true }) []
            (.cons (.mk none ["f.txt"] .nil) .nil)) .nil))
      = [("f.txt", ⟨false, false, false⟩)]
    ∧ specEffectivePolicy ⟨false, false, false⟩
        [some { ocr := some true }, some { describe := some true }, none]
      = ⟨true, true, false⟩
    ∧ (⟨false, false, false⟩ : ProcessingConfig) ≠ ⟨true, true, false⟩ :=
  ⟨by decide, by decide, by decide⟩

theorem insertPart_perm (p : PartInfo) (l : List PartInfo) :
    (insertPart p l).Perm (p :: l) := by
  induction l with
  | nil => exact List.Perm.refl _
  | cons q qs ih =>
    rw [insertPart]
    by_cases h : p.part_number ≤ q.part_number
    · rw [if_pos h]
    · rw [if_neg h]
      exact (ih.cons q).trans (List.Perm.swap p q qs)

theorem sortParts_perm (l : List PartInfo) : (sortParts l).Perm l := by
  induction l with
  | nil => exact List.Perm.refl _
  | cons p ps ih =>
    rw [sortParts]
    exact (insertPart_perm p (sortParts ps)).trans (ih.cons p)

theorem insertPart_pairwise (p : PartInfo) (l : List PartInfo)
    (h : l.Pairwise (fun a b => a.part_number ≤ b.part_number)) :
    (insertPart p l).Pairwise (fun a b => a.part_number ≤ b.part_number) := by
  induction l with
  | nil => simp [insertPart]
  | cons q qs ih =>
    rw [List.pairwise_cons] at h
    rw [insertPart]
    by_cases hpq : p.part_number ≤ q.part_number
    · rw [if_pos hpq]
      refine List.Pairwise.cons ?_ (List.Pairwise.cons h.1 h.2)
      intro b hb
      rcases List.mem_cons.mp hb with hb | hb
      · rw [hb]; exact hpq
      · exact Nat.le_trans hpq (h.1 b hb)
    · rw [if_neg hpq]
      refine List.Pairwise.cons ?_ (ih h.2)
      intro b hb
      have hb2 : b ∈ p :: qs := (insertPart_perm p qs).subset hb
      rcases List.mem_cons.mp hb2 with hb2 | hb2
      · rw [hb2]; exact Nat.le_of_not_le hpq
      · exact h.1 b hb2

theorem sortParts_pairwise (l : List PartInfo) :
    (sortParts l).Pairwise (fun a b => a.part_number ≤ b.part_number) := by
  induction l with
  | nil => simp [sortParts]
  | cons p ps ih => exact insertPart_pairwise p (sortParts ps) ih

theorem map_part_number_filter (l : List PresignedUrlInfo) (q : Nat → Bool) :
    ((l.filter (fun u => q u.part_number)).map (fun u => u.part_number))
      = (l.map (fun u => u.part_number)).filter q := by
  induction l with
  | nil => rfl
  | cons u us ih =>
    rw [List.map_cons, List.filter_cons, List.filter_cons]
    by_cases h : q u.part_number
    · simp only [h, if_true, List.map_cons, ih]
    · simp only [h] at *
      simp [ih]

theorem perm_completed_cover (R CP : List Nat) (hR : R.Nodup) (hCP : CP.Nodup)
    (hsub : ∀ x ∈ CP, x ∈ R) :
    (CP ++ R.filter (fun n => !(decide (n ∈ CP)))).Perm R := by
  have h1 : (R.filter (fun n => decide (n ∈ CP))
      ++ R.filter (fun n => !(decide (n ∈ CP)))).Perm R :=
    List.filter_append_perm _ R
  have h2 : CP.Perm (R.filter (fun n => decide (n ∈ CP))) := by
    apply List.perm_of_nodup_nodup_toFinset_eq hCP (hR.filter _)
    ext a
    simp only [List.mem_toFinset, List.mem_filter, decide_eq_true_eq]
    constructor
    · intro ha
      exact ⟨hsub a ha, ha⟩
    · intro ha
      exact ha.2
  exact (h2.append_right _).trans h1

/-- C4: for every successful multipart transfer of a file split into k parts
(one presigned target per part number 1..k, optionally with already completed
parts excluded from the work queue), the returned part manifest contains
exactly the part numbers 1..k, sorted strictly ascending with no duplicates
or gaps, regardless of the order in which the part uploads completed. -/
theorem uploadMultipart_manifest_complete
    (presignedUrls : List PresignedUrlInfo) (completedParts : List PartInfo)
    (etagHeader : PresignedUrlInfo → String) (completionOrder : List PresignedUrlInfo)
    (k : Nat)
    (hurls : ((presignedUrls.map (fun u => u.part_number))).Perm (List.range' 1 k))
    (hnodup : (completedParts.map (fun p => p.part_number)).Nodup)
    (hsub : ∀ p ∈ completedParts, p.part_number ∈ List.range' 1 k)
    (horder : completionOrder.Perm (partsToUpload presignedUrls completedParts)) :
    (uploadMultipartModel completedParts etagHeader completionOrder).map
        (fun p => p.part_number)
      = List.range' 1 k := by
  have hperm1 : ((uploadMultipartModel completedParts etagHeader completionOrder).map
      (fun p => p.part_number)).Perm
      ((completedParts ++ completionOrder.map (uploadPartResult etagHeader)).map
        (fun p => p.part_number)) :=
    (sortParts_perm _).map _
  have hmapres : (completionOrder.map (uploadPartResult etagHeader)).map
      (fun p => p.part_number) = completionOrder.map (fun u => u.part_number) := by
    rw [List.map_map]
    rfl
  have horder2 : (completionOrder.map (fun u => u.part_number)).Perm
      ((partsToUpload presignedUrls completedParts).map (fun u => u.part_number)) :=
    horder.map _
  have hfilter : (partsToUpload presignedUrls completedParts).map (fun u => u.part_number)
      = (presignedUrls.map (fun u => u.part_number)).filter
          (fun n => !(decide (n ∈ completedParts.map (fun p => p.part_number)))) := by
    rw [partsToUpload]
    exact map_part_number_filter presignedUrls
      (fun n => !(decide (n ∈ completedParts.map (fun p => p.part_number))))
  have hfilter2 : ((presignedUrls.map (fun u => u.part_number)).filter
      (fun n => !(decide (n ∈ completedParts.map (fun p => p.part_number))))).Perm
      ((List.range' 1 k).filter
        (fun n => !(decide (n ∈ completedParts.map (fun p => p.part_number))))) :=
    hurls.filter _
  have hsub2 : ∀ x ∈ completedParts.map (fun p => p.part_number), x ∈ List.range' 1 k := by
    intro x hx
    obtain ⟨p, hp, hpx⟩ := List.mem_map.mp hx
    rw [← hpx]
    exact hsub p hp
  have hcover := perm_completed_cover (List.range' 1 k)
    (completedParts.map (fun p => p.part_number)) (List.nodup_range' 1 k) hnodup hsub2
  have horder3 : (completionOrder.map (fun u => u.part_number)).Perm
      ((List.range' 1 k).filter
        (fun n => !(decide (n ∈ completedParts.map (fun p => p.part_number))))) := by
    refine horder2.trans ?_
    rw [hfilter]
    exact hfilter2
  have hbig : ((uploadMultipartModel completedParts etagHeader completionOrder).map
      (fun p => p.part_number)).Perm (List.range' 1 k) := by
    refine hperm1.trans ?_
    rw [List.map_append, hmapres]
    exact (List.Perm.append_left _ horder3).trans hcover
  have hsorted : ((uploadMultipartModel completedParts etagHeader completionOrder).map
      (fun p => p.part_number)).Pairwise (· ≤ ·) := by
    apply List.Pairwise.map
    · intro a b hab
      exact hab
    · exact sortParts_pairwise _
  have hsortedR : (List.range' 1 k).Pairwise (· ≤ ·) := by
    apply List.Pairwise.imp (fun hlt => Nat.le_of_lt hlt)
    exact List.pairwise_lt_range' 1 k
  exact List.eq_of_perm_of_sorted hbig hsorted hsortedR


theorem uploadMultipart_manifest_complete_witness :
    ((([⟨1, "u1"⟩, ⟨2, "u2"⟩, ⟨3, "u3"⟩] : List PresignedUrlInfo).map
        (fun u => u.part_number)).Perm (List.range' 1 3))
    ∧ ((([⟨2, "e2"⟩] : List PartInfo).map (fun p => p.part_number)).Nodup)
    ∧ (∀ p ∈ ([⟨2, "e2"⟩] : List PartInfo), p.part_number ∈ List.range' 1 3)
    ∧ (([⟨3, "u3"⟩, ⟨1, "u1"⟩] : List PresignedUrlInfo).Perm
        (partsToUpload [⟨1, "u1"⟩, ⟨2, "u2"⟩, ⟨3, "u3"⟩] [⟨2, "e2"⟩]))
    ∧ (uploadMultipartModel [⟨2, "e2"⟩] (fun _ => "\"t\"")
        [⟨3, "u3"⟩, ⟨1, "u1"⟩]).map (fun p => p.part_number) = List.range' 1 3 :=
  ⟨by decide, by decide, by decide, by decide,
    uploadMultipart_manifest_complete [⟨1, "u1"⟩, ⟨2, "u2"⟩, ⟨3, "u3"⟩] [⟨2, "e2"⟩]
      (fun _ => "\"t\"") [⟨3, "u3"⟩, ⟨1, "u1"⟩] 3
      (by decide) (by decide) (by decide) (by decide)⟩

theorem uploadFiles_failure_isolation_witness :
    ((1, TaskStatus.completed) ∈ (uploadFilesModel (fun n : Nat => n == 1) [1, 2]).1)
    ∧ ((fun n : Nat => n == 1) 1 = true)
    ∧ (1, TaskStatus.completed).2 = TaskStatus.completed :=
  ⟨by decide, by decide,
    (uploadFiles_failure_isolation (fun n : Nat => n == 1) [1, 2]).2.2.2
      (1, TaskStatus.completed) (by decide) (by decide)⟩
